import Mathlib

/-!
Verification of the per-prefix reconciliation core of infosquito2.

The definitions below are a shallow embedding of the Go source:
  * the document model and its order-insensitive equality (model.go,
    `Metadatum`, `UserPermission`, `ElasticsearchDocument`, `metadataEqual`,
    `permsEqual`, `ElasticsearchDocument.Equal`);
  * the reindexing pass (reindex.go: `classify`, `getSearchResults`,
    `createBaseUuidsTable`, `createUuidsTable`, `processDataobjects`,
    `processCollections`, `processDeletions`, `ReindexPrefix`).

External collaborators are abstracted as inputs:
  * `json.Unmarshal` into `ElasticsearchDocument` becomes an arbitrary
    function `String → Option ElasticsearchDocument` (the same function is
    used for index hits and projector output, as in the source);
  * SQL and Elasticsearch transport results (temporary-table row counts,
    the search response, the scanned per-object rows) become fields of a
    pass environment;
  * the esutils `BulkIndexer` is an external dependency whose contract is
    modelled from the specification (see `BulkIndexer` below).

Go maps (`map[string]ElasticsearchDocument` etc.) are modelled as
association lists with unique keys; map assignment overwrites the existing
entry for the key or appends a fresh one, and iteration follows list order
(Go's iteration order is unspecified, so any fixed order is a sound model).
Machine integers (`int64` counts) are modelled as `Int`/`Nat`; none of the
verified properties involves counter overflow.
-/

/-- Association-list lookup, modelling Go map indexing `m[k]` with its
`ok` flag (`some` = present). -/
def alookup {α : Type} (k : String) : List (String × α) → Option α
  | [] => none
  | p :: rest => if p.1 = k then some p.2 else alookup k rest

/-- Association-list assignment, modelling Go map assignment `m[k] = v`:
overwrite the entry for `k` when present, append a fresh one otherwise.
Keys stay unique. -/
def mapSet {α : Type} (m : List (String × α)) (k : String) (v : α) : List (String × α) :=
  if (alookup k m).isSome then
    m.map (fun p => if p.1 = k then (k, v) else p)
  else
    m ++ [(k, v)]

/-- Membership in the `seenEsDocs` set (a Go `map[string]bool` used as a
set: absent keys read as `false`). -/
def seenHas (seen : List String) (id : String) : Bool :=
  decide (id ∈ seen)

/-- Marking an id as seen (`seenEsDocs[id] = true`). -/
def seenInsert (seen : List String) (id : String) : List String :=
  if seenHas seen id then seen else seen ++ [id]

/-- One metadata AVU triple (model.go `Metadatum`).  The source field
`attribute` is spelled `attr` here because `attribute` is a Lean keyword. -/
structure Metadatum where
  attr : String
  value : String
  unit : String
deriving DecidableEq, Repr

/-- One user permission entry (model.go `UserPermission`). -/
structure UserPermission where
  user : String
  permission : String
deriving DecidableEq, Repr

/-- The indexed document shape (model.go `ElasticsearchDocument`).
`int64` fields become `Int`. -/
structure ElasticsearchDocument where
  id : String
  path : String
  label : String
  creator : String
  fileType : String
  dateCreated : Int
  dateModified : Int
  fileSize : Int
  metadata : List Metadatum
  userPermissions : List UserPermission
deriving DecidableEq, Repr

/-- model.go `metadataEqual`: the two slices are converted to sets
(`set.NewSetFromSlice`) and compared with set equality.  `List.toFinset`
is exactly that set-of-elements view. -/
def metadataEqual (one two : List Metadatum) : Bool :=
  decide (one.toFinset = two.toFinset)

/-- model.go `permsEqual`: set equality of the two permission slices. -/
def permsEqual (one two : List UserPermission) : Bool :=
  decide (one.toFinset = two.toFinset)

/-- model.go `ElasticsearchDocument.Equal`.  The Go body is a chain of
early `return false` tests; that chain is the short-circuit conjunction
written here, in the source's field order. -/
def ElasticsearchDocument.Equal (doc other : ElasticsearchDocument) : Bool :=
  decide (doc.dateModified = other.dateModified) &&
  decide (doc.fileSize = other.fileSize) &&
  decide (doc.path = other.path) &&
  decide (doc.label = other.label) &&
  decide (doc.id = other.id) &&
  decide (doc.creator = other.creator) &&
  decide (doc.fileType = other.fileType) &&
  decide (doc.dateCreated = other.dateCreated) &&
  metadataEqual doc.metadata other.metadata &&
  permsEqual doc.userPermissions other.userPermissions

/-- reindex.go `DocumentClassification`. -/
inductive DocumentClassification where
  | NoAction
  | IndexDocument
  | UpdateDocument
deriving DecidableEq, Repr

/-- The abstracted `json.Unmarshal` into `ElasticsearchDocument`:
`none` models a deserialization error. -/
def Unmarshal : Type := String → Option ElasticsearchDocument

/-- reindex.go `classify`.  The second component models the returned
`error` (`some ()` = non-nil error).  The Go function returns
`(NoAction, err)` when unmarshalling the projected JSON fails. -/
def classify (u : Unmarshal) (id jsonstr : String)
    (esDocs : List (String × ElasticsearchDocument)) :
    DocumentClassification × Option Unit :=
  match alookup id esDocs with
  | none => (DocumentClassification.IndexDocument, none)
  | some esDoc =>
    match u jsonstr with
    | none => (DocumentClassification.NoAction, some ())
    | some doc =>
      if doc.Equal esDoc then (DocumentClassification.NoAction, none)
      else (DocumentClassification.UpdateDocument, none)

/-- Characterization of `Equal` as the conjunction of the per-field
comparisons: scalar fields exactly, set-valued fields as set equality. -/
theorem Equal_eq_true_iff (a b : ElasticsearchDocument) :
    a.Equal b = true ↔
      (a.dateModified = b.dateModified ∧ a.fileSize = b.fileSize ∧
       a.path = b.path ∧ a.label = b.label ∧ a.id = b.id ∧
       a.creator = b.creator ∧ a.fileType = b.fileType ∧
       a.dateCreated = b.dateCreated ∧
       a.metadata.toFinset = b.metadata.toFinset ∧
       a.userPermissions.toFinset = b.userPermissions.toFinset) := by
  simp [ElasticsearchDocument.Equal, metadataEqual, permsEqual,
    Bool.and_eq_true, decide_eq_true_eq, and_assoc]

/-- The distinguished error conditions a pass can end with.  `tooManyResults`
embeds reindex.go `ErrTooManyResults`; `queryFailure` stands for any
catalog/index query or transport error; `docUnmarshalFailure` is the fatal
`classify` unmarshalling error; `txBeginFailed` is a `BeginTx` failure. -/
inductive ReindexError where
  | txBeginFailed
  | queryFailure
  | tooManyResults
  | docUnmarshalFailure
deriving DecidableEq, Repr

/-- One Elasticsearch search hit as consumed by `getSearchResults`:
its `_id`, its `_type` (`hitType` here) and its raw `_source` JSON. -/
structure Hit where
  id : String
  hitType : String
  source : String
deriving DecidableEq, Repr

/-- The part of the Elasticsearch search response `getSearchResults` reads:
`search.Hits.TotalHits` (an `int64`) and `search.Hits.Hits`. -/
structure SearchHits where
  totalHits : Int
  hits : List Hit
deriving DecidableEq, Repr

/-- The per-hit body of the loop in reindex.go `getSearchResults`:
unmarshal the hit source; on failure skip the hit (`continue`), otherwise
record the document and the hit type under the hit id. -/
def snapshotStep (u : Unmarshal)
    (acc : List (String × ElasticsearchDocument) × List (String × String))
    (hit : Hit) :
    List (String × ElasticsearchDocument) × List (String × String) :=
  match u hit.source with
  | none => acc
  | some doc => (mapSet acc.1 hit.id doc, mapSet acc.2 hit.id hit.hitType)

/-- The two snapshot maps (`esDocs`, `esDocTypes`) built from the hits. -/
def snapshotMaps (u : Unmarshal) (hits : List Hit) :
    List (String × ElasticsearchDocument) × List (String × String) :=
  hits.foldl (snapshotStep u) ([], [])

/-- reindex.go `getSearchResults`.  The search transport call is abstracted
as its result `doRes` (`Except.error` = the `searchService.Do` call failed).
Go returns `(total, esDocs, esDocTypes, err)` with nil maps on error; here
the maps travel inside the `Except`.  `cap` is the package-level cap (named
`maxInPrefix` in the source). -/
def getSearchResults (u : Unmarshal) (cap : Nat) (doRes : Except Unit SearchHits) :
    Int × Except ReindexError
      (List (String × ElasticsearchDocument) × List (String × String)) :=
  match doRes with
  | Except.error _ => (0, Except.error ReindexError.queryFailure)
  | Except.ok search =>
    if search.totalHits > (cap : Int) then
      (search.totalHits, Except.error ReindexError.tooManyResults)
    else
      (search.totalHits, Except.ok (snapshotMaps u search.hits))

/-- reindex.go `createBaseUuidsTable`: the `CreateTemporaryTable` call is
abstracted as its result `tmpRes` (row count or query error).  When the
count exceeds the cap the observed count is returned together with
`ErrTooManyResults`. -/
def createBaseUuidsTable (cap : Nat) (tmpRes : Except Unit Int) :
    Int × Option ReindexError :=
  match tmpRes with
  | Except.error _ => (0, some ReindexError.queryFailure)
  | Except.ok r =>
    if r > (cap : Int) then (r, some ReindexError.tooManyResults)
    else (r, none)

/-- reindex.go `createUuidsTable`: build the base table, then the joined
`object_uuids` table (abstracted as `secondRes`).  Note that on any error
from `createBaseUuidsTable` — including the too-many-results case — the
count returned upward is `0`, not the observed count. -/
def createUuidsTable (cap : Nat) (baseRes secondRes : Except Unit Int) :
    Int × Option ReindexError :=
  match createBaseUuidsTable cap baseRes with
  | (_, some e) => (0, some e)
  | (r, none) =>
    match secondRes with
    | Except.error _ => (0, some ReindexError.queryFailure)
    | Except.ok _ => (r, none)

/-- A bulk operation handed to the accumulator: either an index request
(`NewBulkIndexRequest`, carrying index, id, type and document JSON) or a
delete request (`NewBulkDeleteRequest`, carrying index, type and id). -/
inductive BulkOp where
  | indexOp (index id docType doc : String)
  | deleteOp (index docType id : String)
deriving DecidableEq, Repr

/-- Modelled from the spec: the esutils `BulkIndexer` is an external
dependency (not part of this repository); §4.5 of the specification gives
its contract: `add` buffers an operation and flushes automatically once the
buffer reaches the configured batch size; `flush` sends all buffered
operations in one batch and clears the buffer; `canFlush` reports whether
anything is buffered.  `addedOps` is a history of every operation ever
added, `flushedBatches` the batches sent, `flushAttempts` the number of
flush calls; transport is assumed to succeed (no claim concerns a failing
flush). -/
structure BulkIndexer where
  bulkSize : Nat
  buffer : List BulkOp
  flushedBatches : List (List BulkOp)
  addedOps : List BulkOp
  flushAttempts : Nat
deriving DecidableEq, Repr

/-- Modelled from the spec: a fresh accumulator with the given batch size
(`es.NewBulkIndexer(bulkSize)`). -/
def BulkIndexer.new (bulkSize : Nat) : BulkIndexer :=
  { bulkSize := bulkSize, buffer := [], flushedBatches := [],
    addedOps := [], flushAttempts := 0 }

/-- Modelled from the spec: `flush` sends the buffered operations as one
batch (nothing is sent when the buffer is empty) and clears the buffer. -/
def BulkIndexer.flushB (bi : BulkIndexer) : BulkIndexer :=
  { bi with
    buffer := [],
    flushedBatches :=
      if bi.buffer.isEmpty then bi.flushedBatches
      else bi.flushedBatches ++ [bi.buffer],
    flushAttempts := bi.flushAttempts + 1 }

/-- Modelled from the spec: `add` appends the operation to the buffer and
flushes automatically once the buffer has reached the batch size. -/
def BulkIndexer.add (bi : BulkIndexer) (op : BulkOp) : BulkIndexer :=
  let bi1 : BulkIndexer :=
    { bi with buffer := bi.buffer ++ [op], addedOps := bi.addedOps ++ [op] }
  if bi1.bulkSize ≤ bi1.buffer.length then bi1.flushB else bi1

/-- Modelled from the spec: `canFlush` holds when operations are buffered. -/
def BulkIndexer.canFlush (bi : BulkIndexer) : Bool :=
  !bi.buffer.isEmpty

/-- reindex.go `rowMetadata`: the pass statistics.  The `int64` counters
become `Int` (for the two counts copied from query results) and `Nat`
(for the counters only ever incremented). -/
structure RowMetadata where
  rows : Int
  documents : Int
  processed : Nat
  dataobjects : Nat
  dataobjectsAdded : Nat
  dataobjectsUpdated : Nat
  dataobjectsRemoved : Nat
  colls : Nat
  collsAdded : Nat
  collsUpdated : Nat
  collsRemoved : Nat
deriving DecidableEq, Repr

/-- The zero-initialized `rowMetadata` of a fresh pass. -/
def emptyRows : RowMetadata :=
  { rows := 0, documents := 0, processed := 0, dataobjects := 0,
    dataobjectsAdded := 0, dataobjectsUpdated := 0, dataobjectsRemoved := 0,
    colls := 0, collsAdded := 0, collsUpdated := 0, collsRemoved := 0 }

/-- The mutable state threaded through the processing phases: the
statistics, the `seenEsDocs` set and the bulk accumulator. -/
structure ProcState where
  rows : RowMetadata
  seen : List String
  indexer : BulkIndexer
deriving DecidableEq, Repr

/-- reindex.go `processDataobjects`: the scanned `(id, selectedJSON)` rows
of the data-object query are the input list (`tx.GetDataObjects` and
`Scan` are abstracted away; the only per-row error source left is
`classify`).  Each row marks its id seen, classifies it, updates the
data-object counters and enqueues an index operation typed "file" when the
classification demands one.  The returned Bool is `true` when the loop
aborted with an error. -/
def processDataobjects (u : Unmarshal) (esIndex : String)
    (esDocs : List (String × ElasticsearchDocument)) :
    List (String × String) → ProcState → ProcState × Bool
  | [], st => (st, false)
  | (id, json) :: rest, st =>
    let st1 : ProcState := { st with seen := seenInsert st.seen id }
    match classify u id json esDocs with
    | (_, some _) => (st1, true)
    | (c, none) =>
      let rm :=
        if c = DocumentClassification.UpdateDocument then
          { st1.rows with dataobjectsUpdated := st1.rows.dataobjectsUpdated + 1 }
        else if c = DocumentClassification.IndexDocument then
          { st1.rows with dataobjectsAdded := st1.rows.dataobjectsAdded + 1 }
        else st1.rows
      let st2 : ProcState := { st1 with rows := rm }
      let st3 : ProcState :=
        if c = DocumentClassification.UpdateDocument ∨
            c = DocumentClassification.IndexDocument then
          { st2 with indexer := st2.indexer.add (BulkOp.indexOp esIndex id "file" json) }
        else st2
      let st4 : ProcState :=
        { st3 with rows :=
            { st3.rows with processed := st3.rows.processed + 1,
                            dataobjects := st3.rows.dataobjects + 1 } }
      processDataobjects u esIndex esDocs rest st4

/-- reindex.go `processCollections`: identical to `processDataobjects` but
over the collection rows, typing index operations "folder" and updating
the collection counters. -/
def processCollections (u : Unmarshal) (esIndex : String)
    (esDocs : List (String × ElasticsearchDocument)) :
    List (String × String) → ProcState → ProcState × Bool
  | [], st => (st, false)
  | (id, json) :: rest, st =>
    let st1 : ProcState := { st with seen := seenInsert st.seen id }
    match classify u id json esDocs with
    | (_, some _) => (st1, true)
    | (c, none) =>
      let rm :=
        if c = DocumentClassification.UpdateDocument then
          { st1.rows with collsUpdated := st1.rows.collsUpdated + 1 }
        else if c = DocumentClassification.IndexDocument then
          { st1.rows with collsAdded := st1.rows.collsAdded + 1 }
        else st1.rows
      let st2 : ProcState := { st1 with rows := rm }
      let st3 : ProcState :=
        if c = DocumentClassification.UpdateDocument ∨
            c = DocumentClassification.IndexDocument then
          { st2 with indexer := st2.indexer.add (BulkOp.indexOp esIndex id "folder" json) }
        else st2
      let st4 : ProcState :=
        { st3 with rows :=
            { st3.rows with processed := st3.rows.processed + 1,
                            colls := st3.rows.colls + 1 } }
      processCollections u esIndex esDocs rest st4

/-- The body of the deletion loop in reindex.go `processDeletions` for a
single snapshot id: ids already seen are skipped; otherwise the recorded
type is looked up, defaulting to "file" with a logged anomaly when absent;
the matching removed-counter is incremented only for the "file" and
"folder" types; a bulk delete request is enqueued. -/
def deleteStep (esIndex : String) (esDocTypes : List (String × String))
    (st : ProcState) (id : String) : ProcState :=
  if seenHas st.seen id then st
  else
    let docType := (alookup id esDocTypes).getD "file"
    let rm :=
      if docType = "file" then
        { st.rows with dataobjectsRemoved := st.rows.dataobjectsRemoved + 1 }
      else if docType = "folder" then
        { st.rows with collsRemoved := st.rows.collsRemoved + 1 }
      else st.rows
    { st with rows := rm,
              indexer := st.indexer.add (BulkOp.deleteOp esIndex docType id) }

/-- reindex.go `processDeletions`: iterate over the snapshot ids (the keys
of `esDocs`; Go map iteration order is unspecified, the model iterates in
list order) and run `deleteStep` on each. -/
def processDeletions (esIndex : String)
    (esDocs : List (String × ElasticsearchDocument))
    (esDocTypes : List (String × String)) (st : ProcState) : ProcState :=
  match esDocs with
  | [] => st
  | p :: rest =>
    processDeletions esIndex rest esDocTypes (deleteStep esIndex esDocTypes st p.1)

/-- The environment of one pass: the abstracted external collaborators of
reindex.go `ReindexPrefix`.  `maxIn` is the package-level `maxInPrefix`
cap; `beginTxOk` is the outcome of `db.BeginTx`; the four `Except Unit`
fields are the catalog query results in source order; `searchDo` is the
Elasticsearch response; `dataobjectRows` and `collectionRows` are the
scanned per-object rows of the two final queries. -/
structure PassEnv where
  u : Unmarshal
  maxIn : Nat
  esIndex : String
  beginTxOk : Bool
  baseUuidsTable : Except Unit Int
  uuidsTable : Except Unit Int
  permsTable : Except Unit Unit
  metadataTable : Except Unit Unit
  searchDo : Except Unit SearchHits
  dataobjectRows : Except Unit (List (String × String))
  collectionRows : Except Unit (List (String × String))

/-- The outcome of one pass: the final statistics, the bulk accumulator
(`none` when the pass aborted before `es.NewBulkIndexer` ran, hence before
any bulk operation was possible) and the terminal error, if any. -/
structure PassResult where
  rows : RowMetadata
  indexer : Option BulkIndexer
  err : Option ReindexError

/-- Every bulk operation the pass ever handed to the accumulator. -/
def PassResult.bulkOps (res : PassResult) : List BulkOp :=
  match res.indexer with
  | none => []
  | some bi => bi.addedOps

/-- reindex.go `ReindexPrefix`: the reconciliation pass.  The source order
is kept: begin the read-only transaction, build the uuid tables (recording
the returned row count), snapshot the index (recording the returned
document count), build the perms and metadata tables, create the bulk
accumulator (batch size 1000) with a deferred flush, process data objects,
collections and deletions, and finally force-flush when operations remain
buffered.  The deferred `indexer.Flush()` is modelled by applying `flushB`
on every exit path after the accumulator exists. -/
def ReindexPass (env : PassEnv) : PassResult :=
  if env.beginTxOk = false then
    { rows := emptyRows, indexer := none, err := some ReindexError.txBeginFailed }
  else
    match createUuidsTable env.maxIn env.baseUuidsTable env.uuidsTable with
    | (r, some e) =>
      { rows := { emptyRows with rows := r }, indexer := none, err := some e }
    | (r, none) =>
      match getSearchResults env.u env.maxIn env.searchDo with
      | (t, Except.error e) =>
        { rows := { emptyRows with rows := r, documents := t },
          indexer := none, err := some e }
      | (t, Except.ok (esDocs, esDocTypes)) =>
        match env.permsTable with
        | Except.error _ =>
          { rows := { emptyRows with rows := r, documents := t },
            indexer := none, err := some ReindexError.queryFailure }
        | Except.ok _ =>
          match env.metadataTable with
          | Except.error _ =>
            { rows := { emptyRows with rows := r, documents := t },
              indexer := none, err := some ReindexError.queryFailure }
          | Except.ok _ =>
            match env.dataobjectRows with
            | Except.error _ =>
              { rows := { emptyRows with rows := r, documents := t },
                indexer := some (BulkIndexer.new 1000).flushB,
                err := some ReindexError.queryFailure }
            | Except.ok dRows =>
              match processDataobjects env.u env.esIndex esDocs dRows
                  { rows := { emptyRows with rows := r, documents := t },
                    seen := [], indexer := BulkIndexer.new 1000 } with
              | (st1, true) =>
                { rows := st1.rows, indexer := some st1.indexer.flushB,
                  err := some ReindexError.docUnmarshalFailure }
              | (st1, false) =>
                match env.collectionRows with
                | Except.error _ =>
                  { rows := st1.rows, indexer := some st1.indexer.flushB,
                    err := some ReindexError.queryFailure }
                | Except.ok cRows =>
                  match processCollections env.u env.esIndex esDocs cRows st1 with
                  | (st2, true) =>
                    { rows := st2.rows, indexer := some st2.indexer.flushB,
                      err := some ReindexError.docUnmarshalFailure }
                  | (st2, false) =>
                    { rows := (processDeletions env.esIndex esDocs esDocTypes st2).rows,
                      indexer := some
                        (if (processDeletions env.esIndex esDocs esDocTypes st2).indexer.canFlush
                         then (processDeletions env.esIndex esDocs esDocTypes st2).indexer.flushB
                         else (processDeletions env.esIndex esDocs esDocTypes st2).indexer).flushB,
                      err := none }

example : classify (fun _ => none) "u1" "j" [] =
    (DocumentClassification.IndexDocument, none) := by decide

/-- Looking up after appending a fresh entry at the back. -/
theorem alookup_append_single {α : Type} (m : List (String × α)) (k k' : String) (v : α) :
    alookup k' (m ++ [(k, v)]) =
      match alookup k' m with
      | some w => some w
      | none => if k = k' then some v else none := by
  induction m with
  | nil => simp [alookup]
  | cons p rest ih =>
    by_cases h : p.1 = k'
    · simp [alookup, h]
    · simp [alookup, h, ih]

/-- Looking up after the overwrite pass of `mapSet`. -/
theorem alookup_map_replace {α : Type} (m : List (String × α)) (k k' : String) (v : α) :
    alookup k' (m.map (fun p => if p.1 = k then (k, v) else p)) =
      if k = k' then (alookup k m).map (fun _ => v) else alookup k' m := by
  induction m with
  | nil => simp [alookup]
  | cons p rest ih =>
    by_cases hpk : p.1 = k
    · by_cases hkk : k = k'
      · subst hkk
        simp [alookup, hpk, ih]
      · have hpk' : ¬ p.1 = k' := by
          rw [hpk]; exact hkk
        simp [alookup, hpk, hkk, hpk', ih]
    · by_cases hpk' : p.1 = k'
      · by_cases hkk : k = k'
        · exfalso; exact hpk (by rw [hpk', hkk])
        · have hk'k : ¬ k' = k := fun h => hkk h.symm
          simp [alookup, hpk, hpk', hkk, hk'k]
      · simp [alookup, hpk, hpk', ih]

/-- Lookup after a Go map assignment: the assigned key reads the new
value, every other key is untouched. -/
theorem alookup_mapSet {α : Type} (m : List (String × α)) (k k' : String) (v : α) :
    alookup k' (mapSet m k v) = if k = k' then some v else alookup k' m := by
  unfold mapSet
  by_cases hs : (alookup k m).isSome
  · rw [if_pos hs, alookup_map_replace]
    by_cases hkk : k = k'
    · subst hkk
      rcases ho : alookup k m with _ | w
      · exfalso
        rw [ho] at hs; simp at hs
      · simp [ho]
    · simp [hkk]
  · rw [if_neg hs, alookup_append_single]
    by_cases hkk : k = k'
    · subst hkk
      rcases ho : alookup k m with _ | w
      · simp
      · exfalso; rw [ho] at hs; simp at hs
    · rcases ho : alookup k' m with _ | w
      · simp [hkk]
      · simp [hkk]

/-- A pair of the list is found by looking up its key. -/
theorem alookup_isSome_of_mem {α : Type} (m : List (String × α)) (p : String × α) :
    p ∈ m → (alookup p.1 m).isSome = true := by
  induction m with
  | nil => intro h; cases h
  | cons q rest ih =>
    intro h
    rcases List.mem_cons.mp h with h | h
    · subst h; simp [alookup]
    · by_cases hq : q.1 = p.1
      · simp [alookup, hq]
      · simp [alookup, hq, ih h]

/-- A successful lookup comes from an entry of the list. -/
theorem mem_of_alookup_some {α : Type} (m : List (String × α)) (k : String) (v : α) :
    alookup k m = some v → (k, v) ∈ m := by
  induction m with
  | nil => intro h; simp [alookup] at h
  | cons q rest ih =>
    intro h
    by_cases hq : q.1 = k
    · rw [alookup, if_pos hq] at h
      have h2 : q.2 = v := Option.some.inj h
      have h3 : (k, v) = q := by
        obtain ⟨a, b⟩ := q
        simp only at hq h2
        rw [← hq, ← h2]
      rw [h3]
      exact List.mem_cons_self _ _
    · rw [alookup, if_neg hq] at h
      exact List.mem_cons_of_mem _ (ih h)

/-- `add` records the operation in the history unconditionally. -/
theorem BulkIndexer.add_addedOps (bi : BulkIndexer) (op : BulkOp) :
    (bi.add op).addedOps = bi.addedOps ++ [op] := by
  unfold BulkIndexer.add BulkIndexer.flushB
  by_cases h : bi.bulkSize ≤ bi.buffer.length + 1 <;> simp [h]

/-- `flushB` always counts one more flush attempt. -/
theorem BulkIndexer.flushB_flushAttempts (bi : BulkIndexer) :
    bi.flushB.flushAttempts = bi.flushAttempts + 1 := rfl

/-- Document equality holds one way exactly when it holds the other way. -/
theorem Equal_symm_aux (x y : ElasticsearchDocument) :
    x.Equal y = true → y.Equal x = true := by
  intro h
  rw [Equal_eq_true_iff] at h ⊢
  obtain ⟨h1, h2, h3, h4, h5, h6, h7, h8, h9, h10⟩ := h
  exact ⟨h1.symm, h2.symm, h3.symm, h4.symm, h5.symm, h6.symm, h7.symm,
    h8.symm, h9.symm, h10.symm⟩

/-- C1: `classify` returns `IndexDocument` whenever the id is absent from
the snapshot, whatever the projected JSON; when the id is present and the
projected JSON deserializes, it returns `UpdateDocument` exactly when the
deserialized document is not `Equal` to the snapshot's document for that
id, and `NoAction` exactly when it is. -/
theorem classify_spec :
    (∀ (u : Unmarshal) (id json : String)
        (esDocs : List (String × ElasticsearchDocument)),
      alookup id esDocs = none →
      classify u id json esDocs = (DocumentClassification.IndexDocument, none)) ∧
    (∀ (u : Unmarshal) (id json : String)
        (esDocs : List (String × ElasticsearchDocument))
        (esDoc doc : ElasticsearchDocument),
      alookup id esDocs = some esDoc → u json = some doc →
      ((classify u id json esDocs = (DocumentClassification.UpdateDocument, none) ↔
          doc.Equal esDoc = false) ∧
       (classify u id json esDocs = (DocumentClassification.NoAction, none) ↔
          doc.Equal esDoc = true))) := by
  constructor
  · intro u id json esDocs h
    simp [classify, h]
  · intro u id json esDocs esDoc doc hl hu
    constructor
    · cases hE : doc.Equal esDoc <;> simp [classify, hl, hu, hE]
    · cases hE : doc.Equal esDoc <;> simp [classify, hl, hu, hE]

/-- Document used by the concrete witnesses below. -/
def wDoc0 : ElasticsearchDocument :=
  { id := "u1", path := "/a/b", label := "b", creator := "alice#zone",
    fileType := "txt", dateCreated := 10, dateModified := 20, fileSize := 30,
    metadata := [], userPermissions := [] }

/-- A second witness document differing from `wDoc0` in one scalar field. -/
def wDoc1 : ElasticsearchDocument :=
  { wDoc0 with dateModified := 99 }

/-- Two metadata entries used by the concrete witnesses below. -/
def wMeta0 : Metadatum := { attr := "a0", value := "v0", unit := "" }

/-- A second metadata entry for the witnesses. -/
def wMeta1 : Metadatum := { attr := "a1", value := "v1", unit := "u" }

/-- The unmarshaller used by the concrete witnesses: it accepts exactly
the string "j0", producing `wDoc0`. -/
def wU : Unmarshal := fun s => if s = "j0" then some wDoc0 else none

/-- Witness for C1 at concrete inputs. -/
theorem classify_spec_witness :
    classify wU "zz" "j0" [("u1", wDoc0)] = (DocumentClassification.IndexDocument, none) ∧
    (classify wU "u1" "j0" [("u1", wDoc0)] = (DocumentClassification.NoAction, none) ↔
      wDoc0.Equal wDoc0 = true) := by
  exact ⟨classify_spec.1 wU "zz" "j0" [("u1", wDoc0)] (by decide),
    (classify_spec.2 wU "u1" "j0" [("u1", wDoc0)] wDoc0 wDoc0 (by decide) (by decide)).2⟩

/-- C2: the document equality relation is reflexive and symmetric;
permuting or duplicating entries of `metadata` or `userPermissions` never
changes it; differing in any scalar field forces inequality. -/
theorem Equal_algebra :
    (∀ d : ElasticsearchDocument, d.Equal d = true) ∧
    (∀ a b : ElasticsearchDocument, a.Equal b = b.Equal a) ∧
    (∀ (a b : ElasticsearchDocument) (m : List Metadatum),
      a.metadata.Perm m →
      ElasticsearchDocument.Equal { a with metadata := m } b = a.Equal b) ∧
    (∀ (a b : ElasticsearchDocument) (p : List UserPermission),
      a.userPermissions.Perm p →
      ElasticsearchDocument.Equal { a with userPermissions := p } b = a.Equal b) ∧
    (∀ (a b : ElasticsearchDocument) (x : Metadatum),
      x ∈ a.metadata →
      ElasticsearchDocument.Equal { a with metadata := x :: a.metadata } b = a.Equal b) ∧
    (∀ (a b : ElasticsearchDocument) (x : UserPermission),
      x ∈ a.userPermissions →
      ElasticsearchDocument.Equal { a with userPermissions := x :: a.userPermissions } b
        = a.Equal b) ∧
    (∀ a b : ElasticsearchDocument,
      (a.dateModified ≠ b.dateModified ∨ a.fileSize ≠ b.fileSize ∨
       a.path ≠ b.path ∨ a.label ≠ b.label ∨ a.creator ≠ b.creator ∨
       a.fileType ≠ b.fileType ∨ a.dateCreated ≠ b.dateCreated ∨ a.id ≠ b.id) →
      a.Equal b = false) := by
  refine ⟨?_, ?_, ?_, ?_, ?_, ?_, ?_⟩
  · intro d
    rw [Equal_eq_true_iff]
    exact ⟨rfl, rfl, rfl, rfl, rfl, rfl, rfl, rfl, rfl, rfl⟩
  · intro a b
    cases hab : a.Equal b <;> cases hba : b.Equal a
    · rfl
    · exfalso
      have hc := Equal_symm_aux b a hba
      rw [hab] at hc
      exact Bool.false_ne_true hc
    · exfalso
      have hc := Equal_symm_aux a b hab
      rw [hba] at hc
      exact Bool.false_ne_true hc
    · rfl
  · intro a b m h
    have ht : m.toFinset = a.metadata.toFinset :=
      (List.toFinset_eq_of_perm _ _ h).symm
    simp [ElasticsearchDocument.Equal, metadataEqual, ht]
  · intro a b p h
    have ht : p.toFinset = a.userPermissions.toFinset :=
      (List.toFinset_eq_of_perm _ _ h).symm
    simp [ElasticsearchDocument.Equal, permsEqual, ht]
  · intro a b x hx
    have ht : (x :: a.metadata).toFinset = a.metadata.toFinset := by
      rw [List.toFinset_cons]
      exact Finset.insert_eq_self.mpr (List.mem_toFinset.mpr hx)
    simp [ElasticsearchDocument.Equal, metadataEqual, ht]
  · intro a b x hx
    have ht : (x :: a.userPermissions).toFinset = a.userPermissions.toFinset := by
      rw [List.toFinset_cons]
      exact Finset.insert_eq_self.mpr (List.mem_toFinset.mpr hx)
    simp [ElasticsearchDocument.Equal, permsEqual, ht]
  · intro a b h
    cases hE : a.Equal b
    · rfl
    · exfalso
      have h10 := (Equal_eq_true_iff a b).mp hE
      rcases h with h | h | h | h | h | h | h | h <;> simp_all

/-- C6: an index hit whose source does not deserialize is skipped — the
snapshot built with the bad hit equals the snapshot built without it (the
hit ends up in neither map and the remaining hits are still processed) —
and, when the reported total is within the cap, the reader still succeeds,
surfacing no error. -/
theorem searchResults_skip_bad_hit (u : Unmarshal) (cap : Nat) (t : Int)
    (pre post : List Hit) (h : Hit) (hu : u h.source = none) :
    getSearchResults u cap (Except.ok { totalHits := t, hits := pre ++ h :: post }) =
      getSearchResults u cap (Except.ok { totalHits := t, hits := pre ++ post }) ∧
    (¬ t > (cap : Int) →
      ∃ maps,
        getSearchResults u cap (Except.ok { totalHits := t, hits := pre ++ h :: post })
          = (t, Except.ok maps)) := by
  have hstep : ∀ acc, snapshotStep u acc h = acc := by
    intro acc
    unfold snapshotStep
    rw [hu]
  have hmaps : snapshotMaps u (pre ++ h :: post) = snapshotMaps u (pre ++ post) := by
    unfold snapshotMaps
    rw [List.foldl_append, List.foldl_append, List.foldl_cons, hstep]
  constructor
  · simp only [getSearchResults, hmaps]
  · intro hle
    refine ⟨snapshotMaps u (pre ++ h :: post), ?_⟩
    simp only [getSearchResults, if_neg hle]

/-- A well-formed hit used by the concrete witnesses. -/
def wHit0 : Hit := { id := "u1", hitType := "file", source := "j0" }

/-- A hit whose source the witness unmarshaller rejects. -/
def wHitBad : Hit := { id := "u2", hitType := "file", source := "bad" }

/-- Witness for C6 at concrete inputs. -/
theorem searchResults_skip_bad_hit_witness :
    getSearchResults wU 2 (Except.ok { totalHits := 2, hits := [wHit0, wHitBad] }) =
      getSearchResults wU 2 (Except.ok { totalHits := 2, hits := [wHit0] }) ∧
    (¬ (2 : Int) > ((2 : Nat) : Int) →
      ∃ maps,
        getSearchResults wU 2 (Except.ok { totalHits := 2, hits := [wHit0, wHitBad] })
          = (2, Except.ok maps)) := by
  exact searchResults_skip_bad_hit wU 2 2 [wHit0] [] wHitBad (by decide)

/-- The number of snapshot ids whose deletion-loop iteration would take
the missing-recorded-type fallback branch of `processDeletions` (the id is
unseen and `esDocTypes` has no entry for it). -/
def deletionsFallbackCount (esDocs : List (String × ElasticsearchDocument))
    (esDocTypes : List (String × String)) (seen : List String) : Nat :=
  (esDocs.filter
    (fun p => !seenHas seen p.1 && (alookup p.1 esDocTypes).isNone)).length

/-- Folding hits preserves "every document key has a type entry": the two
maps are always written together. -/
theorem snapshotMaps_invariant_aux (u : Unmarshal) (hits : List Hit) :
    ∀ acc : List (String × ElasticsearchDocument) × List (String × String),
      (∀ id, (alookup id acc.1).isSome = true → (alookup id acc.2).isSome = true) →
      ∀ id, (alookup id (hits.foldl (snapshotStep u) acc).1).isSome = true →
        (alookup id (hits.foldl (snapshotStep u) acc).2).isSome = true := by
  induction hits with
  | nil => intro acc hacc id; exact hacc id
  | cons h rest ih =>
    intro acc hacc id
    rw [List.foldl_cons]
    apply ih
    intro id2
    unfold snapshotStep
    cases hu : u h.source with
    | none => exact hacc id2
    | some doc =>
      simp only [alookup_mapSet]
      by_cases hk : h.id = id2
      · simp [hk]
      · simp only [if_neg hk]
        exact hacc id2

/-- C9: every snapshot produced by `getSearchResults` types every document
it returns — each key of the document map is a key of the type map — so no
deletion-loop iteration over such a snapshot can take the missing-type
fallback branch. -/
theorem snapshot_types_invariant (u : Unmarshal) (cap : Nat)
    (doRes : Except Unit SearchHits) (t : Int)
    (esDocs : List (String × ElasticsearchDocument))
    (esDocTypes : List (String × String))
    (hres : getSearchResults u cap doRes = (t, Except.ok (esDocs, esDocTypes))) :
    (∀ id, (alookup id esDocs).isSome = true → (alookup id esDocTypes).isSome = true) ∧
    (∀ seen, deletionsFallbackCount esDocs esDocTypes seen = 0) := by
  have hinv : ∀ id, (alookup id esDocs).isSome = true →
      (alookup id esDocTypes).isSome = true := by
    cases doRes with
    | error e => simp [getSearchResults] at hres
    | ok search =>
      by_cases hcap : search.totalHits > (cap : Int)
      · simp [getSearchResults, hcap] at hres
      · simp only [getSearchResults, if_neg hcap, Prod.mk.injEq, Except.ok.injEq] at hres
        have hmaps : snapshotMaps u search.hits = (esDocs, esDocTypes) := by
          rw [hres.2]
        intro id
        have := snapshotMaps_invariant_aux u search.hits ([], [])
          (by intro id2 hid2; simp [alookup] at hid2) id
        rw [snapshotMaps] at hmaps
        rw [hmaps] at this
        exact this
  refine ⟨hinv, ?_⟩
  intro seen
  unfold deletionsFallbackCount
  rw [List.length_eq_zero, List.filter_eq_nil_iff]
  intro p hp
  have hty := hinv p.1 (alookup_isSome_of_mem esDocs p hp)
  rcases ho : alookup p.1 esDocTypes with _ | v
  · rw [ho] at hty; simp at hty
  · simp [ho]

/-- Witness for C9 at concrete inputs. -/
theorem snapshot_types_invariant_witness :
    (∀ id, (alookup id [("u1", wDoc0)]).isSome = true →
      (alookup id [("u1", "file")]).isSome = true) ∧
    (∀ seen, deletionsFallbackCount [("u1", wDoc0)] [("u1", "file")] seen = 0) := by
  exact snapshot_types_invariant wU 2
    (Except.ok { totalHits := 1, hits := [wHit0] })
    1 [("u1", wDoc0)] [("u1", "file")] (by rfl)

/-- Whether a bulk operation is a delete request for the given id. -/
def isDeleteFor (id : String) : BulkOp → Bool
  | BulkOp.deleteOp _ _ i => decide (i = id)
  | BulkOp.indexOp _ _ _ _ => false

/-- The delete operations the deletion loop enqueues over a snapshot: one
per unseen snapshot id, tagged with the recorded type and defaulting to
"file" when no type is recorded. -/
def deleteOpsFor (esIndex : String) (esDocTypes : List (String × String))
    (seen : List String) (esDocs : List (String × ElasticsearchDocument)) :
    List BulkOp :=
  (esDocs.filter (fun p => !seenHas seen p.1)).map
    (fun p => BulkOp.deleteOp esIndex ((alookup p.1 esDocTypes).getD "file") p.1)

/-- The deletion-loop body on an unseen id, written out: the matching
removed-counter is bumped for the recorded types "file" and "folder" only,
and the delete request is enqueued in every case. -/
theorem deleteStep_unseen (esIndex : String) (esDocTypes : List (String × String))
    (st : ProcState) (id : String) (hs : seenHas st.seen id = false) :
    deleteStep esIndex esDocTypes st id =
      { st with
        rows :=
          if (alookup id esDocTypes).getD "file" = "file" then
            { st.rows with dataobjectsRemoved := st.rows.dataobjectsRemoved + 1 }
          else if (alookup id esDocTypes).getD "file" = "folder" then
            { st.rows with collsRemoved := st.rows.collsRemoved + 1 }
          else st.rows,
        indexer := st.indexer.add
          (BulkOp.deleteOp esIndex ((alookup id esDocTypes).getD "file") id) } := by
  unfold deleteStep
  rw [hs]
  simp

/-- Decomposition of the deletion loop: the seen set is untouched, the
enqueued operations are exactly `deleteOpsFor`, and the two
removed-counters each grow by the number of unseen ids whose effective
type is "file" respectively "folder". -/
theorem processDeletions_decomp (esIndex : String) (esDocTypes : List (String × String)) :
    ∀ (esDocs : List (String × ElasticsearchDocument)) (st : ProcState),
      (processDeletions esIndex esDocs esDocTypes st).seen = st.seen ∧
      (processDeletions esIndex esDocs esDocTypes st).indexer.addedOps
        = st.indexer.addedOps ++ deleteOpsFor esIndex esDocTypes st.seen esDocs ∧
      (processDeletions esIndex esDocs esDocTypes st).rows.dataobjectsRemoved
        = st.rows.dataobjectsRemoved +
          ((esDocs.filter (fun p => !seenHas st.seen p.1)).filter
            (fun p => decide ((alookup p.1 esDocTypes).getD "file" = "file"))).length ∧
      (processDeletions esIndex esDocs esDocTypes st).rows.collsRemoved
        = st.rows.collsRemoved +
          ((esDocs.filter (fun p => !seenHas st.seen p.1)).filter
            (fun p => decide ((alookup p.1 esDocTypes).getD "file" = "folder"))).length := by
  intro esDocs
  induction esDocs with
  | nil =>
    intro st
    simp [processDeletions, deleteOpsFor]
  | cons p rest ih =>
    intro st
    have hiter : processDeletions esIndex (p :: rest) esDocTypes st
        = processDeletions esIndex rest esDocTypes (deleteStep esIndex esDocTypes st p.1) :=
      rfl
    by_cases hs : seenHas st.seen p.1
    · have hstep : deleteStep esIndex esDocTypes st p.1 = st := by
        unfold deleteStep
        rw [hs]
        simp
      have hfilter : (p :: rest).filter (fun q => !seenHas st.seen q.1)
          = rest.filter (fun q => !seenHas st.seen q.1) := by
        simp [List.filter_cons, hs]
      obtain ⟨ih1, ih2, ih3, ih4⟩ := ih st
      rw [hiter, hstep]
      exact ⟨ih1, by rw [ih2]; simp [deleteOpsFor, hfilter],
        by rw [ih3, hfilter], by rw [ih4, hfilter]⟩
    · rw [Bool.not_eq_true] at hs
      rw [hiter, deleteStep_unseen esIndex esDocTypes st p.1 hs]
      set ty := (alookup p.1 esDocTypes).getD "file" with hty
      set st1 : ProcState :=
        { st with
          rows :=
            if ty = "file" then
              { st.rows with dataobjectsRemoved := st.rows.dataobjectsRemoved + 1 }
            else if ty = "folder" then
              { st.rows with collsRemoved := st.rows.collsRemoved + 1 }
            else st.rows,
          indexer := st.indexer.add (BulkOp.deleteOp esIndex ty p.1) } with hst1
      obtain ⟨ih1, ih2, ih3, ih4⟩ := ih st1
      have hseen1 : st1.seen = st.seen := by rw [hst1]
      have hadd1 : st1.indexer.addedOps
          = st.indexer.addedOps ++ [BulkOp.deleteOp esIndex ty p.1] := by
        rw [hst1]
        exact BulkIndexer.add_addedOps st.indexer _
      have hfilter : (p :: rest).filter (fun q => !seenHas st.seen q.1)
          = p :: rest.filter (fun q => !seenHas st.seen q.1) := by
        simp [List.filter_cons, hs]
      refine ⟨by rw [ih1, hseen1], ?_, ?_, ?_⟩
      · rw [ih2, hseen1, hadd1, deleteOpsFor, deleteOpsFor, hfilter,
          List.map_cons, List.append_assoc]
        rfl
      · rw [ih3, hseen1, hfilter, List.filter_cons]
        by_cases hf : ty = "file"
        · have : st1.rows.dataobjectsRemoved = st.rows.dataobjectsRemoved + 1 := by
            rw [hst1]
            simp [hf]
          rw [this]
          simp only [← hty, hf]
          simp [Nat.add_comm, Nat.add_assoc, Nat.add_left_comm]
        · have : st1.rows.dataobjectsRemoved = st.rows.dataobjectsRemoved := by
            rw [hst1]
            by_cases hd : ty = "folder" <;> simp [hf, hd]
          rw [this]
          simp only [← hty, hf]
          simp
      · rw [ih4, hseen1, hfilter, List.filter_cons]
        by_cases hd : ty = "folder"
        · have hf : ¬ ty = "file" := by
            rw [hd]
            intro hcontra
            exact absurd hcontra (by decide)
          have : st1.rows.collsRemoved = st.rows.collsRemoved + 1 := by
            rw [hst1]
            simp [hf, hd]
          rw [this]
          simp only [← hty, hd]
          simp [Nat.add_comm, Nat.add_assoc, Nat.add_left_comm]
        · have : st1.rows.collsRemoved = st.rows.collsRemoved := by
            rw [hst1]
            by_cases hf : ty = "file" <;> simp [hf, hd]
          rw [this]
          simp only [← hty, hd]
          simp

/-- In a list with pairwise-distinct keys, filtering on one key keeps
exactly one pair when the key is present and none otherwise. -/
theorem filter_key_length {α : Type} (l : List (String × α)) (id : String)
    (hnd : (l.map Prod.fst).Nodup) :
    (l.filter (fun p => decide (p.1 = id))).length
      = if (alookup id l).isSome then 1 else 0 := by
  induction l with
  | nil => simp [alookup]
  | cons p rest ih =>
    rw [List.map_cons, List.nodup_cons] at hnd
    obtain ⟨hp, hrest⟩ := hnd
    by_cases h : p.1 = id
    · have hnone : alookup id rest = none := by
        rcases ho : alookup id rest with _ | v
        · rfl
        · exfalso
          have hm := mem_of_alookup_some rest id v ho
          have hmk : id ∈ rest.map Prod.fst := List.mem_map_of_mem Prod.fst hm
          rw [← h] at hmk
          exact hp hmk
      have hz : (rest.filter (fun q => decide (q.1 = id))).length = 0 := by
        rw [ih hrest, hnone]
        simp
      simp [List.filter_cons, h, alookup, hz]
    · simp [List.filter_cons, h, alookup, ih hrest]

/-- Per-id count of the enqueued delete operations: over a snapshot with
unique ids, exactly one for an unseen snapshot key, none otherwise. -/
theorem deleteOpsFor_count (esIndex : String) (esDocTypes : List (String × String))
    (seen : List String) (esDocs : List (String × ElasticsearchDocument))
    (hnd : (esDocs.map Prod.fst).Nodup) (id : String) :
    ((deleteOpsFor esIndex esDocTypes seen esDocs).filter (isDeleteFor id)).length
      = if (alookup id esDocs).isSome ∧ seenHas seen id = false then 1 else 0 := by
  rw [deleteOpsFor, List.filter_map, List.length_map]
  have hcomp : ((fun op => isDeleteFor id op) ∘
      (fun p : String × ElasticsearchDocument =>
        BulkOp.deleteOp esIndex ((alookup p.1 esDocTypes).getD "file") p.1))
      = fun p : String × ElasticsearchDocument => decide (p.1 = id) := by
    funext p
    simp [Function.comp, isDeleteFor]
  rw [hcomp, List.filter_filter]
  by_cases hs : seenHas seen id
  · have hnil : esDocs.filter
        (fun p => decide (p.1 = id) && !seenHas seen p.1) = [] := by
      rw [List.filter_eq_nil_iff]
      intro p hp
      by_cases hk : p.1 = id
      · rw [hk, hs]
        simp
      · simp [hk]
    rw [hnil]
    simp [hs]
  · rw [Bool.not_eq_true] at hs
    have hcong : esDocs.filter (fun p => decide (p.1 = id) && !seenHas seen p.1)
        = esDocs.filter (fun p => decide (p.1 = id)) := by
      apply List.filter_congr
      intro p hp
      by_cases hk : p.1 = id
      · rw [hk, hs]
        simp
      · simp [hk]
    rw [hcong, filter_key_length esDocs id hnd, hs]
    simp

/-- Every enqueued delete operation for an id carries the recorded type of
that id, defaulting to "file". -/
theorem deleteOpsFor_mem_eq (esIndex : String) (esDocTypes : List (String × String))
    (seen : List String) (esDocs : List (String × ElasticsearchDocument))
    (id : String) (op : BulkOp)
    (hop : op ∈ deleteOpsFor esIndex esDocTypes seen esDocs)
    (hdel : isDeleteFor id op = true) :
    op = BulkOp.deleteOp esIndex ((alookup id esDocTypes).getD "file") id := by
  rw [deleteOpsFor, List.mem_map] at hop
  obtain ⟨p, hp, hfp⟩ := hop
  rw [← hfp] at hdel ⊢
  have hk : p.1 = id := by
    simpa [isDeleteFor] using hdel
  rw [hk]

/-- C5: over a snapshot with unique ids, the deletion loop enqueues the
operations `deleteOpsFor` — for each id, exactly one delete operation when
the id is a snapshot key not marked seen and none otherwise — and every
delete operation for an id is tagged with the snapshot's recorded type for
that id, defaulting to "file" when no type is recorded. -/
theorem processDeletions_delete_ops (esIndex : String)
    (esDocs : List (String × ElasticsearchDocument))
    (esDocTypes : List (String × String)) (st : ProcState)
    (hnd : (esDocs.map Prod.fst).Nodup) :
    (processDeletions esIndex esDocs esDocTypes st).indexer.addedOps
      = st.indexer.addedOps ++ deleteOpsFor esIndex esDocTypes st.seen esDocs ∧
    (∀ id,
      ((deleteOpsFor esIndex esDocTypes st.seen esDocs).filter (isDeleteFor id)).length
        = if (alookup id esDocs).isSome ∧ seenHas st.seen id = false then 1 else 0) ∧
    (∀ id op, op ∈ deleteOpsFor esIndex esDocTypes st.seen esDocs →
      isDeleteFor id op = true →
      op = BulkOp.deleteOp esIndex ((alookup id esDocTypes).getD "file") id) :=
  ⟨(processDeletions_decomp esIndex esDocTypes esDocs st).2.1,
   fun id => deleteOpsFor_count esIndex esDocTypes st.seen esDocs hnd id,
   fun id op hop hdel => deleteOpsFor_mem_eq esIndex esDocTypes st.seen esDocs id op hop hdel⟩

/-- Two disjoint filters never keep more elements than the list holds. -/
theorem filter_disjoint_le {α : Type} (p q : α → Bool) :
    ∀ l : List α, (∀ x ∈ l, ¬(p x = true ∧ q x = true)) →
      (l.filter p).length + (l.filter q).length ≤ l.length := by
  intro l
  induction l with
  | nil => intro _; simp
  | cons a rest ih =>
    intro hdisj
    have hrest := ih (fun x hx => hdisj x (List.mem_cons_of_mem a hx))
    have ha := hdisj a (List.mem_cons_self a rest)
    rw [List.filter_cons, List.filter_cons, List.length_cons]
    cases hpa : p a <;> cases hqa : q a
    · simp [hpa, hqa]
      omega
    · simp [hpa, hqa]
      omega
    · simp [hpa, hqa]
      omega
    · exact absurd ⟨hpa, hqa⟩ ha

/-- With disjoint filters and one element passing neither, the two filters
together keep strictly fewer elements than the list holds. -/
theorem filter_disjoint_lt {α : Type} (p q : α → Bool) :
    ∀ l : List α, (∀ x ∈ l, ¬(p x = true ∧ q x = true)) →
      ∀ x, x ∈ l → p x = false → q x = false →
      (l.filter p).length + (l.filter q).length < l.length := by
  intro l
  induction l with
  | nil => intro _ x hx; cases hx
  | cons a rest ih =>
    intro hdisj x hx hpx hqx
    have hdrest : ∀ y ∈ rest, ¬(p y = true ∧ q y = true) :=
      fun y hy => hdisj y (List.mem_cons_of_mem a hy)
    rw [List.filter_cons, List.filter_cons, List.length_cons]
    rcases List.mem_cons.mp hx with hxa | hxr
    · rw [← hxa, hpx, hqx]
      have := filter_disjoint_le p q rest hdrest
      simp
      omega
    · have hlt := ih hdrest x hxr hpx hqx
      cases hpa : p a <;> cases hqa : q a
      · simp [hpa, hqa]
        omega
      · simp [hpa, hqa]
        omega
      · simp [hpa, hqa]
        omega
      · exact absurd ⟨hpa, hqa⟩ (hdisj a (List.mem_cons_self a rest))

/-- C10: an unseen snapshot id whose recorded type is neither "file" nor
"folder" still gets exactly one delete operation, tagged with that type,
while its loop iteration leaves every statistics counter untouched; over
the whole snapshot the two removed-counters together grow by strictly less
than the number of delete operations enqueued, so the pass statistics
undercount deletions. -/
theorem unknown_type_deletion (esIndex : String)
    (esDocs : List (String × ElasticsearchDocument))
    (esDocTypes : List (String × String)) (st : ProcState)
    (id : String) (d : ElasticsearchDocument) (ty : String)
    (hnd : (esDocs.map Prod.fst).Nodup)
    (hmem : alookup id esDocs = some d)
    (hs : seenHas st.seen id = false)
    (hty : alookup id esDocTypes = some ty)
    (hfile : ty ≠ "file") (hfolder : ty ≠ "folder") :
    deleteStep esIndex esDocTypes st id
      = { st with indexer := st.indexer.add (BulkOp.deleteOp esIndex ty id) } ∧
    ((deleteOpsFor esIndex esDocTypes st.seen esDocs).filter (isDeleteFor id)).length = 1 ∧
    BulkOp.deleteOp esIndex ty id ∈ deleteOpsFor esIndex esDocTypes st.seen esDocs ∧
    (processDeletions esIndex esDocs esDocTypes st).rows.dataobjectsRemoved +
        (processDeletions esIndex esDocs esDocTypes st).rows.collsRemoved
      < st.rows.dataobjectsRemoved + st.rows.collsRemoved +
        (deleteOpsFor esIndex esDocTypes st.seen esDocs).length := by
  have hgetD : (alookup id esDocTypes).getD "file" = ty := by
    rw [hty]
    rfl
  refine ⟨?_, ?_, ?_, ?_⟩
  · rw [deleteStep_unseen esIndex esDocTypes st id hs, hgetD]
    simp [hfile, hfolder]
  · rw [deleteOpsFor_count esIndex esDocTypes st.seen esDocs hnd id, hmem, hs]
    simp
  · rw [deleteOpsFor]
    have hmemd : (id, d) ∈ esDocs := mem_of_alookup_some esDocs id d hmem
    have hmemf : (id, d) ∈ esDocs.filter (fun p => !seenHas st.seen p.1) := by
      rw [List.mem_filter]
      exact ⟨hmemd, by rw [hs]; rfl⟩
    have := List.mem_map_of_mem
      (fun p : String × ElasticsearchDocument =>
        BulkOp.deleteOp esIndex ((alookup p.1 esDocTypes).getD "file") p.1) hmemf
    simpa [hgetD] using this
  · obtain ⟨-, -, hdr, hcr⟩ := processDeletions_decomp esIndex esDocTypes esDocs st
    rw [hdr, hcr, deleteOpsFor, List.length_map]
    have hdisj : ∀ p : String × ElasticsearchDocument,
        p ∈ esDocs.filter (fun q => !seenHas st.seen q.1) →
        ¬(decide ((alookup p.1 esDocTypes).getD "file" = "file") = true ∧
          decide ((alookup p.1 esDocTypes).getD "file" = "folder") = true) := by
      intro p hp hcontra
      obtain ⟨h1, h2⟩ := hcontra
      rw [decide_eq_true_eq] at h1 h2
      rw [h1] at h2
      exact absurd h2 (by decide)
    have hmemf : (id, d) ∈ esDocs.filter (fun p => !seenHas st.seen p.1) := by
      rw [List.mem_filter]
      exact ⟨mem_of_alookup_some esDocs id d hmem, by rw [hs]; rfl⟩
    have hlt := filter_disjoint_lt
      (fun p : String × ElasticsearchDocument =>
        decide ((alookup p.1 esDocTypes).getD "file" = "file"))
      (fun p : String × ElasticsearchDocument =>
        decide ((alookup p.1 esDocTypes).getD "file" = "folder"))
      (esDocs.filter (fun q => !seenHas st.seen q.1)) hdisj (id, d) hmemf
      (by simp only [hgetD]; exact decide_eq_false hfile)
      (by simp only [hgetD]; exact decide_eq_false hfolder)
    omega

/-- A fresh processing state used by the concrete witnesses. -/
def wSt0 : ProcState :=
  { rows := emptyRows, seen := ["seenid"], indexer := BulkIndexer.new 1000 }

/-- Witness for C5 at concrete inputs. -/
theorem processDeletions_delete_ops_witness :
    (processDeletions "idx" [("u1", wDoc0)] [("u1", "folder")] wSt0).indexer.addedOps
      = wSt0.indexer.addedOps ++ deleteOpsFor "idx" [("u1", "folder")] wSt0.seen [("u1", wDoc0)] ∧
    (∀ id,
      ((deleteOpsFor "idx" [("u1", "folder")] wSt0.seen [("u1", wDoc0)]).filter
          (isDeleteFor id)).length
        = if (alookup id [("u1", wDoc0)]).isSome ∧ seenHas wSt0.seen id = false then 1 else 0) ∧
    (∀ id op, op ∈ deleteOpsFor "idx" [("u1", "folder")] wSt0.seen [("u1", wDoc0)] →
      isDeleteFor id op = true →
      op = BulkOp.deleteOp "idx" ((alookup id [("u1", "folder")]).getD "file") id) := by
  exact processDeletions_delete_ops "idx" [("u1", wDoc0)] [("u1", "folder")] wSt0 (by decide)

/-- Witness for C10 at concrete inputs. -/
theorem unknown_type_deletion_witness :
    deleteStep "idx" [("u1", "weird")] wSt0 "u1"
      = { wSt0 with indexer := wSt0.indexer.add (BulkOp.deleteOp "idx" "weird" "u1") } ∧
    ((deleteOpsFor "idx" [("u1", "weird")] wSt0.seen [("u1", wDoc0)]).filter
        (isDeleteFor "u1")).length = 1 ∧
    BulkOp.deleteOp "idx" "weird" "u1" ∈ deleteOpsFor "idx" [("u1", "weird")] wSt0.seen
      [("u1", wDoc0)] ∧
    (processDeletions "idx" [("u1", wDoc0)] [("u1", "weird")] wSt0).rows.dataobjectsRemoved +
        (processDeletions "idx" [("u1", wDoc0)] [("u1", "weird")] wSt0).rows.collsRemoved
      < wSt0.rows.dataobjectsRemoved + wSt0.rows.collsRemoved +
        (deleteOpsFor "idx" [("u1", "weird")] wSt0.seen [("u1", wDoc0)]).length := by
  exact unknown_type_deletion "idx" [("u1", wDoc0)] [("u1", "weird")] wSt0
    "u1" wDoc0 "weird" (by decide) (by decide) (by decide) (by decide)
    (by decide) (by decide)


/-- Witness for C2 at concrete inputs. -/
theorem Equal_algebra_witness :
    wDoc0.Equal wDoc0 = true ∧
    wDoc0.Equal wDoc1 = wDoc1.Equal wDoc0 ∧
    ElasticsearchDocument.Equal
        { wDoc0 with metadata := [wMeta1, wMeta0] } wDoc1
      = ElasticsearchDocument.Equal { wDoc0 with metadata := [wMeta0, wMeta1] } wDoc1 ∧
    ElasticsearchDocument.Equal
        { wDoc0 with metadata := wMeta0 :: [wMeta0] } wDoc1
      = ElasticsearchDocument.Equal { wDoc0 with metadata := [wMeta0] } wDoc1 ∧
    wDoc0.Equal wDoc1 = false := by
  refine ⟨Equal_algebra.1 wDoc0, Equal_algebra.2.1 wDoc0 wDoc1, ?_, ?_, ?_⟩
  · exact Equal_algebra.2.2.1 { wDoc0 with metadata := [wMeta0, wMeta1] } wDoc1
      [wMeta1, wMeta0] (List.Perm.swap wMeta1 wMeta0 [])
  · exact Equal_algebra.2.2.2.2.1 { wDoc0 with metadata := [wMeta0] } wDoc1 wMeta0
      (by decide)
  · exact Equal_algebra.2.2.2.2.2.2 wDoc0 wDoc1 (Or.inl (by decide))

/-- A data-object row whose id is in the snapshot but whose projected JSON
the unmarshaller rejects aborts the loop at that row: the outcome does not
depend on the rows after it, and the loop reports an error. -/
theorem processDataobjects_stops (u : Unmarshal) (esIndex : String)
    (esDocs : List (String × ElasticsearchDocument)) (id json : String)
    (post : List (String × String))
    (hl : (alookup id esDocs).isSome = true) (hu : u json = none) :
    ∀ (pre : List (String × String)) (st : ProcState),
      processDataobjects u esIndex esDocs (pre ++ (id, json) :: post) st
        = processDataobjects u esIndex esDocs (pre ++ [(id, json)]) st ∧
      (processDataobjects u esIndex esDocs (pre ++ (id, json) :: post) st).2 = true := by
  have hcl : classify u id json esDocs = (DocumentClassification.NoAction, some ()) := by
    rcases ho : alookup id esDocs with _ | esDoc
    · rw [ho] at hl
      simp at hl
    · simp [classify, ho, hu]
  intro pre
  induction pre with
  | nil =>
    intro st
    constructor
    · simp only [List.nil_append, processDataobjects, hcl]
    · simp only [List.nil_append, processDataobjects, hcl]
  | cons q pre2 ih =>
    intro st
    obtain ⟨qid, qjson⟩ := q
    rcases hc : classify u qid qjson esDocs with ⟨c, e⟩
    cases e with
    | some err =>
      constructor
      · simp only [List.cons_append, processDataobjects, hc]
      · simp only [List.cons_append, processDataobjects, hc]
    | none =>
      constructor
      · simp only [List.cons_append, processDataobjects, hc]
        exact (ih _).1
      · simp only [List.cons_append, processDataobjects, hc]
        exact (ih _).2

/-- C7: when the id is present in the snapshot and the projected document
JSON fails to deserialize, `classify` returns an error; the data-object
loop stops at that row — its outcome is independent of every later row —
reports the error, and the pass then terminates with the fatal
unmarshalling error. -/
theorem projector_unmarshal_fatal (u : Unmarshal) (esIndex : String)
    (esDocs : List (String × ElasticsearchDocument)) (id json : String)
    (pre post : List (String × String)) (st : ProcState)
    (hl : (alookup id esDocs).isSome = true) (hu : u json = none) :
    classify u id json esDocs = (DocumentClassification.NoAction, some ()) ∧
    processDataobjects u esIndex esDocs (pre ++ (id, json) :: post) st
      = processDataobjects u esIndex esDocs (pre ++ [(id, json)]) st ∧
    (processDataobjects u esIndex esDocs (pre ++ (id, json) :: post) st).2 = true ∧
    (∀ env : PassEnv, env.u = u → env.beginTxOk = true →
      ∀ (r t : Int) (esDocTypes : List (String × String)),
      createUuidsTable env.maxIn env.baseUuidsTable env.uuidsTable = (r, none) →
      getSearchResults env.u env.maxIn env.searchDo = (t, Except.ok (esDocs, esDocTypes)) →
      env.permsTable = Except.ok () →
      env.metadataTable = Except.ok () →
      env.dataobjectRows = Except.ok (pre ++ (id, json) :: post) →
      (ReindexPass env).err = some ReindexError.docUnmarshalFailure) := by
  have hcl : classify u id json esDocs = (DocumentClassification.NoAction, some ()) := by
    rcases ho : alookup id esDocs with _ | esDoc
    · rw [ho] at hl
      simp at hl
    · simp [classify, ho, hu]
  refine ⟨hcl,
    (processDataobjects_stops u esIndex esDocs id json post hl hu pre st).1,
    (processDataobjects_stops u esIndex esDocs id json post hl hu pre st).2, ?_⟩
  intro env huenv htx r t esDocTypes hcu hgs hperm hmeta hdata
  have hsnd := (processDataobjects_stops env.u env.esIndex esDocs id json post hl
    (by rw [huenv]; exact hu) pre
    { rows := { emptyRows with rows := r, documents := t }, seen := [],
      indexer := BulkIndexer.new 1000 }).2
  rcases hpd : processDataobjects env.u env.esIndex esDocs (pre ++ (id, json) :: post)
      { rows := { emptyRows with rows := r, documents := t }, seen := [],
        indexer := BulkIndexer.new 1000 } with ⟨st1, b⟩
  rw [hpd] at hsnd
  simp only at hsnd
  subst hsnd
  rw [ReindexPass]
  simp only [htx, hcu, hgs, hperm, hmeta, hdata, hpd]
  simp

/-- A pass environment whose first data-object row has undeserializable
projected JSON for an id present in the snapshot. -/
def wEnv1 : PassEnv :=
  { u := wU, maxIn := 2, esIndex := "idx", beginTxOk := true,
    baseUuidsTable := Except.ok 1, uuidsTable := Except.ok 1,
    permsTable := Except.ok (), metadataTable := Except.ok (),
    searchDo := Except.ok { totalHits := 1, hits := [wHit0] },
    dataobjectRows := Except.ok [("u1", "bad"), ("u2", "j0")],
    collectionRows := Except.ok [] }

/-- Witness for C7 at concrete inputs. -/
theorem projector_unmarshal_fatal_witness :
    classify wU "u1" "bad" [("u1", wDoc0)] = (DocumentClassification.NoAction, some ()) ∧
    (processDataobjects wU "idx" [("u1", wDoc0)] [("u1", "bad"), ("u2", "j0")] wSt0).2 = true ∧
    (ReindexPass wEnv1).err = some ReindexError.docUnmarshalFailure := by
  have h := projector_unmarshal_fatal wU "idx" [("u1", wDoc0)] "u1" "bad" [] [("u2", "j0")]
    wSt0 (by decide) (by decide)
  exact ⟨h.1, h.2.2.1, h.2.2.2 wEnv1 rfl rfl 1 1 [("u1", "file")] rfl rfl rfl rfl rfl⟩

/-- C3: when the identifier-relation row count exceeds the cap,
`createBaseUuidsTable` returns the observed count to its caller together
with the distinguished too-many-results error (its caller
`createUuidsTable` passes the error on with a zeroed count), the pass
aborts with that error, and — the accumulator never having been created —
the pass performs no bulk operation at all. -/
theorem catalogCap_abort (env : PassEnv) (r : Int)
    (htx : env.beginTxOk = true)
    (hbase : env.baseUuidsTable = Except.ok r)
    (hgt : r > (env.maxIn : Int)) :
    createBaseUuidsTable env.maxIn env.baseUuidsTable
      = (r, some ReindexError.tooManyResults) ∧
    createUuidsTable env.maxIn env.baseUuidsTable env.uuidsTable
      = (0, some ReindexError.tooManyResults) ∧
    (ReindexPass env).err = some ReindexError.tooManyResults ∧
    (ReindexPass env).indexer = none ∧
    PassResult.bulkOps (ReindexPass env) = [] := by
  have hcb : createBaseUuidsTable env.maxIn env.baseUuidsTable
      = (r, some ReindexError.tooManyResults) := by
    rw [hbase, createBaseUuidsTable]
    simp [hgt]
  have hcu : createUuidsTable env.maxIn env.baseUuidsTable env.uuidsTable
      = (0, some ReindexError.tooManyResults) := by
    rw [createUuidsTable, hcb]
  have hrp : ReindexPass env
      = { rows := { emptyRows with rows := 0 }, indexer := none,
          err := some ReindexError.tooManyResults } := by
    rw [ReindexPass]
    simp only [htx, hcu]
    simp
  exact ⟨hcb, hcu, by rw [hrp], by rw [hrp], by rw [hrp]; rfl⟩

/-- An environment whose catalog-side identifier relation is over the cap. -/
def wEnv2 : PassEnv := { wEnv1 with baseUuidsTable := Except.ok 5 }

/-- Witness for C3 at concrete inputs. -/
theorem catalogCap_abort_witness :
    createBaseUuidsTable wEnv2.maxIn wEnv2.baseUuidsTable
      = (5, some ReindexError.tooManyResults) ∧
    createUuidsTable wEnv2.maxIn wEnv2.baseUuidsTable wEnv2.uuidsTable
      = (0, some ReindexError.tooManyResults) ∧
    (ReindexPass wEnv2).err = some ReindexError.tooManyResults ∧
    (ReindexPass wEnv2).indexer = none ∧
    PassResult.bulkOps (ReindexPass wEnv2) = [] := by
  exact catalogCap_abort wEnv2 5 rfl rfl (by decide)

/-- C4: when the index-side reported total exceeds the cap, the snapshot
reader returns that total with the distinguished too-many-results error
and no documents, and the pass aborts with zero rows processed — before
any classification — and no accumulator, hence no bulk operation. -/
theorem indexCap_abort (env : PassEnv) (r : Int) (s : SearchHits)
    (htx : env.beginTxOk = true)
    (hcu : createUuidsTable env.maxIn env.baseUuidsTable env.uuidsTable = (r, none))
    (hdo : env.searchDo = Except.ok s)
    (hgt : s.totalHits > (env.maxIn : Int)) :
    getSearchResults env.u env.maxIn env.searchDo
      = (s.totalHits, Except.error ReindexError.tooManyResults) ∧
    ReindexPass env
      = { rows := { emptyRows with rows := r, documents := s.totalHits },
          indexer := none, err := some ReindexError.tooManyResults } ∧
    (ReindexPass env).rows.processed = 0 ∧
    PassResult.bulkOps (ReindexPass env) = [] := by
  have hgs : getSearchResults env.u env.maxIn env.searchDo
      = (s.totalHits, Except.error ReindexError.tooManyResults) := by
    rw [hdo, getSearchResults]
    simp [hgt]
  have hrp : ReindexPass env
      = { rows := { emptyRows with rows := r, documents := s.totalHits },
          indexer := none, err := some ReindexError.tooManyResults } := by
    rw [ReindexPass]
    simp only [htx, hcu, hgs]
    simp
  exact ⟨hgs, hrp, by rw [hrp]; rfl, by rw [hrp]; rfl⟩

/-- An environment whose index-side reported total is over the cap. -/
def wEnv3 : PassEnv :=
  { wEnv1 with searchDo := Except.ok { totalHits := 7, hits := [] } }

/-- Witness for C4 at concrete inputs. -/
theorem indexCap_abort_witness :
    getSearchResults wEnv3.u wEnv3.maxIn wEnv3.searchDo
      = (7, Except.error ReindexError.tooManyResults) ∧
    ReindexPass wEnv3
      = { rows := { emptyRows with rows := 1, documents := 7 },
          indexer := none, err := some ReindexError.tooManyResults } ∧
    (ReindexPass wEnv3).rows.processed = 0 ∧
    PassResult.bulkOps (ReindexPass wEnv3) = [] := by
  exact indexCap_abort wEnv3 1 { totalHits := 7, hits := [] } rfl rfl rfl (by decide)

/-- Every pass outcome either has no accumulator (it aborted before one
was created) or ends with a deferred flush: the accumulator returned is
always the result of a final `flushB`. -/
theorem ReindexPass_indexer_shape (env : PassEnv) :
    (ReindexPass env).indexer = none ∨
    ∃ x : BulkIndexer, (ReindexPass env).indexer = some x.flushB := by
  unfold ReindexPass
  repeat' split
  all_goals first
    | (left; rfl)
    | (right; exact ⟨_, rfl⟩)

/-- C8: a bulk flush happens automatically inside `add` exactly when the
buffered operations reach the batch size; whenever a pass result carries
an accumulator — also on early error exits — at least one flush attempt
was made on it (the deferred flush); and a normally completing pass ends
with an empty buffer, having force-flushed exactly one extra batch when
operations remained buffered after processing and none otherwise. -/
theorem flush_discipline :
    (∀ (bi : BulkIndexer) (op : BulkOp),
      (bi.bulkSize ≤ bi.buffer.length + 1 →
        (bi.add op).buffer = [] ∧
        (bi.add op).flushedBatches = bi.flushedBatches ++ [bi.buffer ++ [op]]) ∧
      (bi.buffer.length + 1 < bi.bulkSize →
        (bi.add op).buffer = bi.buffer ++ [op] ∧
        (bi.add op).flushedBatches = bi.flushedBatches)) ∧
    (∀ (env : PassEnv) (bi : BulkIndexer),
      (ReindexPass env).indexer = some bi → 1 ≤ bi.flushAttempts) ∧
    (∀ (env : PassEnv) (r t : Int)
        (esDocs : List (String × ElasticsearchDocument))
        (esDocTypes : List (String × String))
        (dRows cRows : List (String × String)) (st1 st2 : ProcState),
      env.beginTxOk = true →
      createUuidsTable env.maxIn env.baseUuidsTable env.uuidsTable = (r, none) →
      getSearchResults env.u env.maxIn env.searchDo = (t, Except.ok (esDocs, esDocTypes)) →
      env.permsTable = Except.ok () →
      env.metadataTable = Except.ok () →
      env.dataobjectRows = Except.ok dRows →
      env.collectionRows = Except.ok cRows →
      processDataobjects env.u env.esIndex esDocs dRows
        { rows := { emptyRows with rows := r, documents := t }, seen := [],
          indexer := BulkIndexer.new 1000 } = (st1, false) →
      processCollections env.u env.esIndex esDocs cRows st1 = (st2, false) →
      ∃ biFin, (ReindexPass env).indexer = some biFin ∧
        biFin.buffer = [] ∧
        biFin.flushedBatches
          = (processDeletions env.esIndex esDocs esDocTypes st2).indexer.flushedBatches ++
            (if (processDeletions env.esIndex esDocs esDocTypes st2).indexer.buffer = []
             then []
             else [(processDeletions env.esIndex esDocs esDocTypes st2).indexer.buffer]) ∧
        (processDeletions env.esIndex esDocs esDocTypes st2).indexer.flushAttempts + 1
          ≤ biFin.flushAttempts) := by
  refine ⟨?_, ?_, ?_⟩
  · intro bi op
    constructor
    · intro h
      have hc : bi.bulkSize ≤ (bi.buffer ++ [op]).length := by
        rw [List.length_append, List.length_cons, List.length_nil]
        omega
      have hne : (bi.buffer ++ [op]).isEmpty = false := by
        cases hb : bi.buffer ++ [op] with
        | nil => exact absurd hb (by simp)
        | cons a l => rfl
      constructor <;> simp [BulkIndexer.add, BulkIndexer.flushB, h, hc, hne]
    · intro h
      have hc : ¬ bi.bulkSize ≤ bi.buffer.length + 1 := by
        omega
      constructor <;> simp [BulkIndexer.add, hc]
  · intro env bi h
    rcases ReindexPass_indexer_shape env with hn | ⟨x, hx⟩
    · rw [hn] at h
      cases h
    · rw [hx] at h
      have hbi : bi = x.flushB := (Option.some.inj h).symm
      rw [hbi, BulkIndexer.flushB_flushAttempts]
      omega
  · intro env r t esDocs esDocTypes dRows cRows st1 st2 htx hcu hgs hperm hmeta hdata
      hcoll hpd hpc
    have hred : (ReindexPass env).indexer
        = some ((if (processDeletions env.esIndex esDocs esDocTypes st2).indexer.canFlush
                 then (processDeletions env.esIndex esDocs esDocTypes st2).indexer.flushB
                 else (processDeletions env.esIndex esDocs esDocTypes st2).indexer).flushB) := by
      rw [ReindexPass]
      simp only [htx, hcu, hgs, hperm, hmeta, hdata, hcoll, hpd, hpc]
      simp
    by_cases hcf : (processDeletions env.esIndex esDocs esDocTypes st2).indexer.canFlush
    · have hne : (processDeletions env.esIndex esDocs esDocTypes st2).indexer.buffer.isEmpty
          = false := by
        unfold BulkIndexer.canFlush at hcf
        cases hb : (processDeletions env.esIndex esDocs esDocTypes st2).indexer.buffer.isEmpty
        · rfl
        · rw [hb] at hcf
          cases hcf
      have hnnil : ¬ (processDeletions env.esIndex esDocs esDocTypes st2).indexer.buffer
          = [] := by
        intro hb
        rw [hb] at hne
        simp at hne
      refine ⟨_, by rw [hred, if_pos hcf], ?_, ?_, ?_⟩
      · rfl
      · simp [BulkIndexer.flushB, hne, hnnil]
      · simp only [BulkIndexer.flushB]
        omega
    · refine ⟨_, by rw [hred, if_neg hcf], ?_, ?_, ?_⟩
      · rfl
      · have hbe : (processDeletions env.esIndex esDocs esDocTypes st2).indexer.buffer.isEmpty
            = true := by
          unfold BulkIndexer.canFlush at hcf
          cases hb : (processDeletions env.esIndex esDocs esDocTypes st2).indexer.buffer.isEmpty
          · rw [hb] at hcf
            cases hcf rfl
          · rfl
        have hbnil : (processDeletions env.esIndex esDocs esDocTypes st2).indexer.buffer = [] :=
          List.isEmpty_iff.mp hbe
        simp [BulkIndexer.flushB, hbe, hbnil]
      · simp only [BulkIndexer.flushB]
        omega

/-- An environment that completes a pass normally: one snapshot document,
no catalog rows, so the pass enqueues one deletion. -/
def wEnv4 : PassEnv := { wEnv1 with dataobjectRows := Except.ok [] }

/-- The processing state right after the prerequisite phase of `wEnv4`. -/
def wSt1 : ProcState :=
  { rows := { emptyRows with rows := 1, documents := 1 }, seen := [],
    indexer := BulkIndexer.new 1000 }

/-- Witness for C8 at concrete inputs. -/
theorem flush_discipline_witness :
    (((BulkIndexer.new 1).add (BulkOp.deleteOp "idx" "file" "u1")).buffer = [] ∧
      ((BulkIndexer.new 1).add (BulkOp.deleteOp "idx" "file" "u1")).flushedBatches
        = (BulkIndexer.new 1).flushedBatches ++
          [(BulkIndexer.new 1).buffer ++ [BulkOp.deleteOp "idx" "file" "u1"]]) ∧
    1 ≤ ({ bulkSize := 1000, buffer := [],
           flushedBatches := [[BulkOp.deleteOp "idx" "file" "u1"]],
           addedOps := [BulkOp.deleteOp "idx" "file" "u1"],
           flushAttempts := 2 } : BulkIndexer).flushAttempts ∧
    (∃ biFin, (ReindexPass wEnv4).indexer = some biFin ∧
      biFin.buffer = [] ∧
      biFin.flushedBatches
        = (processDeletions wEnv4.esIndex [("u1", wDoc0)] [("u1", "file")]
            wSt1).indexer.flushedBatches ++
          (if (processDeletions wEnv4.esIndex [("u1", wDoc0)] [("u1", "file")]
                wSt1).indexer.buffer = []
           then []
           else [(processDeletions wEnv4.esIndex [("u1", wDoc0)] [("u1", "file")]
                  wSt1).indexer.buffer]) ∧
      (processDeletions wEnv4.esIndex [("u1", wDoc0)] [("u1", "file")]
          wSt1).indexer.flushAttempts + 1
        ≤ biFin.flushAttempts) := by
  refine ⟨(flush_discipline.1 (BulkIndexer.new 1) (BulkOp.deleteOp "idx" "file" "u1")).1
    (by decide), ?_, ?_⟩
  · exact flush_discipline.2.1 wEnv4
      { bulkSize := 1000, buffer := [],
        flushedBatches := [[BulkOp.deleteOp "idx" "file" "u1"]],
        addedOps := [BulkOp.deleteOp "idx" "file" "u1"],
        flushAttempts := 2 } (by rfl)
  · exact flush_discipline.2.2 wEnv4 1 1 [("u1", wDoc0)] [("u1", "file")] [] []
      wSt1 wSt1 rfl rfl rfl rfl rfl rfl rfl rfl rfl
